import Mathlib

/-
Verification of the bridgeproxy chaining-proxy core: a shallow embedding of
the peer-chain dialer (readLine, doHTTPConnect, DialProxy), the TLS hijack
entry point, the pooled dialer (fingerprint keys, the acquire loop over the
background channel), and the lazy fingerprint registration, together with
theorems settling the specification claims about them.
-/

namespace Bridgeproxy

/-- Model of crypto/tls.Config as used by the dialer: the fields the spec
cares about (skip verification, expected server name). -/
structure TLSConfig where
  insecureSkipVerify : Bool
  serverName : String
deriving DecidableEq, Repr

/-- Peer: one hop of the chain (TLSConfig nil if unencrypted; ConnectExtra
are extra headers sent after the CONNECT line, modelled as an association
list standing for map[string]string). -/
structure Peer where
  tlsConfig : Option TLSConfig
  hostName : String
  port : Int
  connectExtra : List (String × String)
deriving DecidableEq, Repr

/-- The loop guard of readLine: the line read so far ends in CR LF
(length >= 2, byte at length-2 is CR, byte at length-1 is LF). -/
def lineDone (acc : List Char) : Bool :=
  decide (2 ≤ acc.length) &&
    (acc.get? (acc.length - 2) == some '\r') &&
    (acc.get? (acc.length - 1) == some '\n')

/-- Core of readLine: keep reading one byte at a time from src until the
accumulated line ends in CR LF; running out of bytes (io.ReadFull failing)
is an error, modelled as none. Returns the line and the unconsumed rest. -/
def readLineAux : List Char → List Char → Option (List Char × List Char)
  | acc, [] => if lineDone acc then some (acc, []) else none
  | acc, c :: rest =>
    if lineDone acc then some (acc, c :: rest)
    else readLineAux (acc ++ [c]) rest

/-- readLine reads a network line one byte at a time, unbuffered: exactly
the bytes of the line are consumed from the source. -/
def readLine (src : List Char) : Option (List Char × List Char) :=
  readLineAux [] src

/-- A tunnel connection as progressively wrapped by the dialer: a raw TCP
socket at hop 0, wrapped by tls.Client at every hop whose TLSConfig is
non-nil. -/
inductive Conn where
  | tcp (hostName : String) (port : Int)
  | tls (inner : Conn) (cfg : TLSConfig)
deriving DecidableEq, Repr

/-- The error values the dialer can return; each constructor corresponds to
one error-return site of the source and records the host name that the
fmt.Errorf message names. The net.Dial error of hop 0 is dialFailed. -/
inductive DialErr where
  | dialFailed (host : String)
  | writeConnectFailed (host : String)
  | writeHeaderFailed (host : String)
  | writeEndFailed (host : String)
  | readStatusFailed (host : String)
  | badStatus (host : String) (line : List Char)
  | missingSecondLine (host : String)
  | handshakeFailed (host : String)
deriving DecidableEq, Repr

/-- The host name a dialer error names. -/
def DialErr.host : DialErr → String
  | .dialFailed h => h
  | .writeConnectFailed h => h
  | .writeHeaderFailed h => h
  | .writeEndFailed h => h
  | .readStatusFailed h => h
  | .badStatus h _ => h
  | .missingSecondLine h => h
  | .handshakeFailed h => h

/-- Observable network actions of a dial: the TCP dial of hop 0, a CONNECT
request (with the extra headers passed for it), and a TLS handshake. -/
inductive Ev where
  | dial (host : String) (port : Int)
  | connect (host : String) (port : Int) (headers : List (String × String))
  | handshake (host : String)
deriving DecidableEq, Repr

/-- Behaviour the network exhibits at one hop: whether the TCP dial would
succeed (used at hop 0 only), the outcome of each write (indexed 0 for the
CONNECT line, 1.. for the extra headers, then the blank line), the bytes
the peer answers with, and whether a TLS handshake would succeed. -/
structure HopEnv where
  dialOk : Bool
  writeOk : Nat → Bool
  resp : List Char
  handshakeOk : Bool

/-- The status-line acceptance test of doHTTPConnect: the response line must
start with "HTTP/1.0 200" or "HTTP/1.1 200". -/
def status200 (line : List Char) : Bool :=
  "HTTP/1.0 200".data.isPrefixOf line || "HTTP/1.1 200".data.isPrefixOf line

/-- doHTTPConnect issues an HTTP/1.0 CONNECT for peer over the connection,
sending the extra headers of activePeer, then reads the status line (through a
1024-byte limit) and one more line. It always returns a connection (its
argument), but may also return an error. -/
def doHTTPConnect (conn : Conn) (peer activePeer : Peer) (e : HopEnv) :
    Conn × Option DialErr :=
  if e.writeOk 0 = false then
    (conn, some (.writeConnectFailed peer.hostName))
  else if ((List.range activePeer.connectExtra.length).all
      fun j => e.writeOk (j + 1)) = false then
    (conn, some (.writeHeaderFailed peer.hostName))
  else if e.writeOk (activePeer.connectExtra.length + 1) = false then
    (conn, some (.writeEndFailed peer.hostName))
  else
    match readLine (e.resp.take 1024) with
    | none => (conn, some (.readStatusFailed peer.hostName))
    | some (line, _) =>
      if status200 line = false then
        (conn, some (.badStatus peer.hostName line))
      else
        match readLine (e.resp.drop line.length) with
        | none => (conn, some (.missingSecondLine peer.hostName))
        | some _ => (conn, none)

/-- The handshake events a hop contributes: one per peer with a TLSConfig. -/
def tlsEvs (p : Peer) : List Ev :=
  match p.tlsConfig with
  | none => []
  | some _ => [Ev.handshake p.hostName]

/-- The TLS step at the end of each loop iteration of DialProxy: if the peer
has a TLSConfig, wrap the connection in a TLS client and handshake; on
handshake failure return the unwrapped connection with the error. -/
def hopTLS (conn : Conn) (peer : Peer) (e : HopEnv) :
    Conn × Option DialErr × List Ev :=
  match peer.tlsConfig with
  | none => (conn, none, [])
  | some cfg =>
    if e.handshakeOk then
      (Conn.tls conn cfg, none, [Ev.handshake peer.hostName])
    else
      (conn, some (.handshakeFailed peer.hostName), [Ev.handshake peer.hostName])

/-- The iterations of the DialProxy loop for peers 1 onward: each issues a
CONNECT to the peer with the extra headers of the previous peer, then the TLS step.
The Nat argument indexes into the hop environments. -/
def dialLoop : Peer → Conn → List Peer → (Nat → HopEnv) → Nat →
    Option Conn × Option DialErr × List Ev
  | _, conn, [], _, _ => (some conn, none, [])
  | prev, conn, peer :: rest, env, i =>
    match doHTTPConnect conn peer prev (env i) with
    | (c1, some er) =>
      (some c1, some er, [Ev.connect peer.hostName peer.port prev.connectExtra])
    | (c1, none) =>
      match hopTLS c1 peer (env i) with
      | (c2, some er, evs) =>
        (some c2, some er, Ev.connect peer.hostName peer.port prev.connectExtra :: evs)
      | (c2, none, evs) =>
        match dialLoop peer c2 rest env (i + 1) with
        | (c3, er3, evs3) =>
          (c3, er3, Ev.connect peer.hostName peer.port prev.connectExtra :: evs ++ evs3)

/-- DialProxy dials a proxy chain: peer 0 by plain TCP, every later peer via
CONNECT over the connection built so far, wrapping in TLS wherever a
TLSConfig is present. Even when an error is returned there may be a
connection that needs to be closed. The third component is the trace of
network actions attempted, in order. -/
def DialProxy (peers : List Peer) (env : Nat → HopEnv) :
    Option Conn × Option DialErr × List Ev :=
  match peers with
  | [] => (none, none, [])
  | p0 :: rest =>
    if (env 0).dialOk then
      match hopTLS (Conn.tcp p0.hostName p0.port) p0 (env 0) with
      | (c1, some er, evs) =>
        (some c1, some er, Ev.dial p0.hostName p0.port :: evs)
      | (c1, none, evs) =>
        match dialLoop p0 c1 rest env 1 with
        | (c2, er2, evs2) =>
          (c2, er2, Ev.dial p0.hostName p0.port :: evs ++ evs2)
    else
      (none, some (.dialFailed p0.hostName), [Ev.dial p0.hostName p0.port])

/-- The hop-ordered action sequence of a fully successful dial of the hops
after hop 0: CONNECT to each peer with the headers of the previous peer, then
its handshake if it has a TLSConfig. -/
def connectTrace : Peer → List Peer → List Ev
  | _, [] => []
  | prev, peer :: rest =>
    Ev.connect peer.hostName peer.port prev.connectExtra :: tlsEvs peer
      ++ connectTrace peer rest

/-- The hop-ordered action sequence of a fully successful dial. -/
def expectedTrace : List Peer → List Ev
  | [] => []
  | p0 :: rest => Ev.dial p0.hostName p0.port :: tlsEvs p0 ++ connectTrace p0 rest

/-- The CONNECT requests contained in a trace, in order. -/
def connectEvents (t : List Ev) : List Ev :=
  t.filter fun ev => match ev with
    | .connect _ _ _ => true
    | _ => false

/-- The TLS handshakes contained in a trace, in order. -/
def handshakeEvents (t : List Ev) : List Ev :=
  t.filter fun ev => match ev with
    | .handshake _ => true
    | _ => false

/-- All writes of a CONNECT exchange with the given extra-header set
succeed in this hop environment. -/
def writesOk (e : HopEnv) (activePeer : Peer) : Prop :=
  e.writeOk 0 = true
    ∧ ((List.range activePeer.connectExtra.length).all
        fun j => e.writeOk (j + 1)) = true
    ∧ e.writeOk (activePeer.connectExtra.length + 1) = true

/-- The response bytes of the peer parse as a CONNECT acceptance: a first line
accepted by status200 followed by a readable second line. -/
def respOk (resp : List Char) : Prop :=
  ∃ line rest, readLine (resp.take 1024) = some (line, rest)
    ∧ status200 line = true
    ∧ (readLine (resp.drop line.length)).isSome = true

/-- A hop environment in which every network operation succeeds. -/
def HopOk (e : HopEnv) : Prop :=
  e.dialOk = true ∧ (∀ j, e.writeOk j = true) ∧ e.handshakeOk = true ∧ respOk e.resp

/-- A sample plaintext first-hop proxy with one extra CONNECT header. -/
def pA : Peer := ⟨none, "a", 1, [("Proxy-Authorization", "Basic x")]⟩

/-- A sample TLS-wrapped second hop. -/
def pB : Peer := ⟨some ⟨true, "b"⟩, "b", 2, []⟩

/-- A hop environment where everything succeeds and the peer accepts the
CONNECT with a bare "HTTP/1.0 200" status line. -/
def okHop : HopEnv :=
  ⟨true, fun _ => true, "HTTP/1.0 200\r\n\r\n".data, true⟩

/-- An environment whose TCP dial fails. -/
def noDialHop : HopEnv := ⟨false, fun _ => true, [], true⟩

/-- An environment where everything works except the TLS handshake. -/
def badTLSHop : HopEnv :=
  ⟨true, fun _ => true, "HTTP/1.0 200\r\n\r\n".data, false⟩

/-- A hop environment whose peer rejects the CONNECT with a 404. -/
def rejectHop : HopEnv :=
  ⟨true, fun _ => true, "HTTP/1.1 404 Not Found\r\n\r\n".data, true⟩

/-- What handleRequest does with the dial result: on error it writes the
502 response, closes the remote if non-nil and closes the client; on
success it starts the bidirectional relay on the returned connection. -/
inductive HandleOutcome where
  | relay (remote : Option Conn)
  | errorResponse (code : Nat) (er : DialErr) (closedRemote : Bool)
deriving DecidableEq, Repr

/-- handleRequest calls DialProxy and branches on the error only. -/
def handleRequest (peers : List Peer) (env : Nat → HopEnv) : HandleOutcome :=
  match DialProxy peers env with
  | (remote, some er, _) => HandleOutcome.errorResponse 502 er remote.isSome
  | (remote, none, _) => HandleOutcome.relay remote

/-- Outcome of the TLS hijack entry point. -/
inductive HijackOutcome where
  | closedNoTunnel
  | closedDialFailed (er : DialErr)
  | closedConnectFailed (er : DialErr)
  | relaying (proxyConn : Conn)
  | panicked
deriving DecidableEq, Repr

/-- hijackTLSRequest: with the SNI host extracted from the ClientHello (none
models a ClientHello parse failure), reject if there is no host, dial the
whole configured chain, then issue one further CONNECT to host:443 through
the last configured peer (with the ConnectExtra of that peer), and relay. An
empty chain panics on the peers[len(peers)-1] index. -/
def hijackTLSRequest (sni : Option String) (peers : List Peer)
    (env : Nat → HopEnv) (envF : HopEnv) : HijackOutcome × List Ev :=
  match sni with
  | none => (.closedNoTunnel, [])
  | some host =>
    if host = "" then (.closedNoTunnel, [])
    else
      match DialProxy peers env with
      | (_, some er, evs) => (.closedDialFailed er, evs)
      | (proxy, none, evs) =>
        match proxy, peers.getLast? with
        | some conn, some lastPeer =>
          match doHTTPConnect conn ⟨none, host, 443, []⟩ lastPeer envF with
          | (_, some er) =>
            (.closedConnectFailed er, evs ++ [Ev.connect host 443 lastPeer.connectExtra])
          | (c2, none) =>
            (.relaying c2, evs ++ [Ev.connect host 443 lastPeer.connectExtra])
        | _, _ => (.panicked, evs)

end Bridgeproxy

namespace Pooled

/-- Peer of the pooled version: ConnectExtra is map[string][]string. -/
structure Peer where
  tlsConfig : Option Bridgeproxy.TLSConfig
  hostName : String
  port : Int
  connectExtra : List (String × List String)
deriving DecidableEq, Repr

/-- One hostName:port entry as printed into the fingerprint. -/
def hostPort (p : Peer) : String :=
  p.hostName ++ ":" ++ toString p.port

/-- The chain fingerprint built by the pooled DialProxy: starting from the
empty string, append "hostName:port/" for every peer in order. -/
def peersAsString (peers : List Peer) : String :=
  peers.foldl (fun acc p => acc ++ p.hostName ++ ":" ++ toString p.port ++ "/") ""

/-- A connection as held by the pool queue: an identifier plus whether the
zero-length probe read on it would report an error (peer closed it). -/
structure PoolConn where
  id : Nat
  probeErr : Bool
deriving DecidableEq, Repr

/-- One result published on the channel of the fingerprint by the background
dialer: a possibly-nil connection and a possibly-nil error. -/
structure ConnResult where
  c : Option PoolConn
  e : Option String
deriving DecidableEq, Repr

/-- The actions the receive loop of the pooled DialProxy performs on published
results: receiving a result, probe-reading a connection, closing one.
The vocabulary includes closing so that its absence is expressible. -/
inductive PAct where
  | recv (r : ConnResult)
  | probeRead (c : PoolConn)
  | closeConn (c : PoolConn)
deriving DecidableEq, Repr

/-- How the receive loop of the pooled DialProxy ends. -/
inductive AcqOutcome where
  | ret (c : Option PoolConn) (e : Option String)
  | panicked
  | blocked
deriving DecidableEq, Repr

/-- The receive loop of the pooled DialProxy over the sequence of results
the channel delivers: take the next result, probe-read res.c (a method
call on a nil connection panics), discard and continue if the probe
errors, return (nil, res.e) if res.e is non-nil, else return (res.c, nil).
An exhausted sequence models blocking forever on the channel. -/
def acquireLoop : List ConnResult → AcqOutcome × List PAct
  | [] => (.blocked, [])
  | r :: rest =>
    match r.c with
    | none => (.panicked, [PAct.recv r])
    | some c =>
      if c.probeErr then
        match acquireLoop rest with
        | (out, acts) => (out, PAct.recv r :: PAct.probeRead c :: acts)
      else if r.e.isSome then
        (.ret none r.e, [PAct.recv r, PAct.probeRead c])
      else
        (.ret (some c) none, [PAct.recv r, PAct.probeRead c])

/-- One caller executing the registration fragment of the pooled DialProxy:
pc 0 = about to read the map, pc 1 = about to act on what it saw,
pc 2 = past the fragment. sawAbsent records the result of the lookup. -/
structure RegCaller where
  pc : Nat
  sawAbsent : Bool
deriving DecidableEq, Repr

/-- The shared state of the registration fragment for one fingerprint:
whether the fingerprint is registered in the process-wide map, how many
channels were made and how many background tasks were spawned, plus the
two concurrent callers. -/
structure RegState where
  registered : Bool
  chansMade : Nat
  tasksSpawned : Nat
  caller1 : RegCaller
  caller2 : RegCaller
deriving DecidableEq, Repr

/-- One step of a single caller: the lookup (chn, ok := tcpConnections[k])
records whether the entry was absent; the second step, taken only when the
lookup saw the entry absent, makes a channel, stores it and spawns the
background dialing task (modelled as one atomic block, which only removes
interleavings). -/
def regCallerStep (s : RegState) (c : RegCaller) : RegState × RegCaller :=
  if c.pc = 0 then
    (s, ⟨1, !s.registered⟩)
  else if c.pc = 1 then
    if c.sawAbsent then
      (⟨true, s.chansMade + 1, s.tasksSpawned + 1, s.caller1, s.caller2⟩,
       ⟨2, c.sawAbsent⟩)
    else
      (s, ⟨2, c.sawAbsent⟩)
  else
    (s, c)

/-- Run one step of the scheduled caller (false = caller1, true = caller2). -/
def regStep (s : RegState) (who : Bool) : RegState :=
  if who then
    match regCallerStep s s.caller2 with
    | (s2, c2) => ⟨s2.registered, s2.chansMade, s2.tasksSpawned, s.caller1, c2⟩
  else
    match regCallerStep s s.caller1 with
    | (s1, c1) => ⟨s1.registered, s1.chansMade, s1.tasksSpawned, c1, s.caller2⟩

/-- Run a schedule from the initial state: fingerprint unregistered, both
callers about to do their first access. -/
def regRun (sched : List Bool) : RegState :=
  sched.foldl regStep ⟨false, 0, 0, ⟨0, false⟩, ⟨0, false⟩⟩

end Pooled

namespace Bridgeproxy

theorem readLineAux_done (acc src : List Char) (h : lineDone acc = true) :
    readLineAux acc src = some (acc, src) := by
  cases src <;> simp [readLineAux, h]

theorem readLineAux_step (acc : List Char) (c : Char) (rest : List Char)
    (h : lineDone acc = false) :
    readLineAux acc (c :: rest) = readLineAux (acc ++ [c]) rest := by
  simp [readLineAux, h]

theorem readLineAux_nil (acc : List Char) (h : lineDone acc = false) :
    readLineAux acc [] = none := by
  simp [readLineAux, h]

theorem readLineAux_consume :
    ∀ (l acc rest : List Char),
      (∀ k, k < l.length → lineDone (acc ++ l.take k) = false) →
      lineDone (acc ++ l) = true →
      readLineAux acc (l ++ rest) = some (acc ++ l, rest) := by
  intro l
  induction l with
  | nil =>
    intro acc rest _ hdone
    simp only [List.append_nil] at hdone
    simpa using readLineAux_done acc rest hdone
  | cons c l ih =>
    intro acc rest hlow hdone
    have h0 : lineDone acc = false := by
      have := hlow 0 (by simp)
      simpa using this
    rw [List.cons_append, readLineAux_step acc c (l ++ rest) h0]
    have hlow' : ∀ k, k < l.length → lineDone ((acc ++ [c]) ++ l.take k) = false := by
      intro k hk
      have := hlow (k + 1) (by simpa using Nat.succ_lt_succ hk)
      simpa [List.append_assoc] using this
    have hdone' : lineDone ((acc ++ [c]) ++ l) = true := by
      simpa [List.append_assoc] using hdone
    simpa [List.append_assoc] using ih (acc ++ [c]) rest hlow' hdone'

theorem readLineAux_exhaust :
    ∀ (s acc : List Char),
      (∀ k, k ≤ s.length → lineDone (acc ++ s.take k) = false) →
      readLineAux acc s = none := by
  intro s
  induction s with
  | nil =>
    intro acc hlow
    exact readLineAux_nil acc (by simpa using hlow 0 (by simp))
  | cons c s ih =>
    intro acc hlow
    have h0 : lineDone acc = false := by simpa using hlow 0 (by simp)
    rw [readLineAux_step acc c s h0]
    apply ih
    intro k hk
    have := hlow (k + 1) (by simpa using Nat.succ_le_succ hk)
    simpa [List.append_assoc] using this

theorem lineDone_take_false (l : List Char) (k : Nat) (hk : k < l.length)
    (hno : ∀ i, i < l.length → i + 2 < l.length →
      ¬(l.get? i = some '\r' ∧ l.get? (i + 1) = some '\n')) :
    lineDone (l.take k) = false := by
  by_contra h
  have hdone : lineDone (l.take k) = true := by
    cases hdk : lineDone (l.take k) with
    | false => exact absurd hdk h
    | true => rfl
  simp only [lineDone, Bool.and_eq_true, decide_eq_true_eq, beq_iff_eq] at hdone
  obtain ⟨⟨h2, hcr⟩, hlf⟩ := hdone
  have hlen : (l.take k).length = k := by
    simp [List.length_take, Nat.min_eq_left (Nat.le_of_lt hk)]
  rw [hlen] at h2 hcr hlf
  have hcr' : l.get? (k - 2) = some '\r' := by
    rw [List.get?_take (by omega)] at hcr; exact hcr
  have hlf' : l.get? (k - 2 + 1) = some '\n' := by
    have : k - 1 = k - 2 + 1 := by omega
    rw [List.get?_take (by omega)] at hlf
    rw [← this]; exact hlf
  exact hno (k - 2) (by omega) (by omega) ⟨hcr', hlf'⟩

theorem lineDone_of_crlf_end (l0 : List Char) :
    lineDone (l0 ++ ['\r', '\n']) = true := by
  have hlen : (l0 ++ ['\r', '\n']).length = l0.length + 2 := by simp
  have hcr : (l0 ++ ['\r', '\n']).get? (l0.length) = some '\r' := by
    rw [List.get?_append_right (by omega)]
    simp
  have hlf : (l0 ++ ['\r', '\n']).get? (l0.length + 1) = some '\n' := by
    rw [List.get?_append_right (by omega)]
    simp
  simp only [lineDone, hlen, Bool.and_eq_true, decide_eq_true_eq, beq_iff_eq]
  refine ⟨⟨by omega, ?_⟩, ?_⟩
  · simpa using hcr
  · simpa using hlf

/-- C4: readLine returns exactly the prefix of the input up to and including
the first CR LF and consumes no byte beyond it (the unread rest is returned
untouched); if the stream is exhausted before a CR LF is seen, readLine
returns an error. -/
theorem readLine_c4 :
    (∀ l0 rest : List Char,
      (∀ i, i < (l0 ++ ['\r', '\n']).length → i + 2 < (l0 ++ ['\r', '\n']).length →
        ¬((l0 ++ ['\r', '\n']).get? i = some '\r' ∧
          (l0 ++ ['\r', '\n']).get? (i + 1) = some '\n')) →
      readLine ((l0 ++ ['\r', '\n']) ++ rest) = some (l0 ++ ['\r', '\n'], rest))
    ∧ (∀ s : List Char,
      (∀ i, i < s.length → ¬(s.get? i = some '\r' ∧ s.get? (i + 1) = some '\n')) →
      readLine s = none) := by
  constructor
  · intro l0 rest hno
    unfold readLine
    have := readLineAux_consume (l0 ++ ['\r', '\n']) [] rest
      (fun k hk => by
        simpa using lineDone_take_false (l0 ++ ['\r', '\n']) k hk hno)
      (by simpa using lineDone_of_crlf_end l0)
    simpa using this
  · intro s hno
    unfold readLine
    apply readLineAux_exhaust
    intro k hk
    rcases Nat.lt_or_ge k s.length with hlt | hge
    · simpa using lineDone_take_false s k hlt
        (fun i hi _ hpair => hno i hi hpair)
    · have hks : k = s.length := Nat.le_antisymm hk hge
      subst hks
      simp only [List.take_length, List.nil_append]
      by_contra h
      have hdone : lineDone s = true := by
        cases hds : lineDone s with
        | false => exact absurd hds h
        | true => rfl
      simp only [lineDone, Bool.and_eq_true, decide_eq_true_eq, beq_iff_eq] at hdone
      obtain ⟨⟨h2, hcr⟩, hlf⟩ := hdone
      have : s.length - 1 = s.length - 2 + 1 := by omega
      rw [this] at hlf
      exact hno (s.length - 2) (by omega) ⟨hcr, hlf⟩

/-- C4 witness: readLine on a concrete stream "ab\r\ncd" returns the line
"ab\r\n" and leaves "cd" unread; on "abc" (no CR LF) it errors. -/
theorem readLine_c4_witness :
    readLine (("ab".data ++ ['\r', '\n']) ++ "cd".data)
        = some ("ab".data ++ ['\r', '\n'], "cd".data)
    ∧ readLine "abc".data = none :=
  ⟨readLine_c4.1 "ab".data "cd".data (by decide),
   readLine_c4.2 "abc".data (by decide)⟩

theorem doHTTPConnect_conn (conn : Conn) (peer activePeer : Peer) (e : HopEnv) :
    (doHTTPConnect conn peer activePeer e).1 = conn := by
  unfold doHTTPConnect
  repeat' split
  all_goals rfl

theorem doHTTPConnect_ok (conn : Conn) (peer activePeer : Peer) (e : HopEnv)
    (hw : writesOk e activePeer) (hr : respOk e.resp) :
    doHTTPConnect conn peer activePeer e = (conn, none) := by
  obtain ⟨hw0, hwh, hwe⟩ := hw
  obtain ⟨line, rest, hline, hstatus, hsecond⟩ := hr
  obtain ⟨snd, hsnd⟩ := Option.isSome_iff_exists.mp hsecond
  simp [doHTTPConnect, hw0, hwh, hwe, hline, hstatus, hsnd]

theorem hopTLS_ok (conn : Conn) (peer : Peer) (e : HopEnv)
    (h : e.handshakeOk = true) :
    ∃ c2, hopTLS conn peer e = (c2, none, tlsEvs peer) := by
  unfold hopTLS tlsEvs
  cases peer.tlsConfig with
  | none => exact ⟨conn, rfl⟩
  | some cfg => exact ⟨Conn.tls conn cfg, by simp [h]⟩

theorem hopTLS_evs (conn : Conn) (peer : Peer) (e : HopEnv) :
    (hopTLS conn peer e).2.2 = tlsEvs peer := by
  unfold hopTLS tlsEvs
  cases peer.tlsConfig with
  | none => rfl
  | some cfg => by_cases h : e.handshakeOk <;> simp [h]

theorem hopTLS_fail (conn : Conn) (peer : Peer) (e : HopEnv) (cfg : TLSConfig)
    (hc : peer.tlsConfig = some cfg) (h : e.handshakeOk = false) :
    hopTLS conn peer e =
      (conn, some (.handshakeFailed peer.hostName), [Ev.handshake peer.hostName]) := by
  simp [hopTLS, hc, h]

theorem dialLoop_ok :
    ∀ (rest : List Peer) (prev : Peer) (conn : Conn) (env : Nat → HopEnv) (i : Nat),
      (∀ j, j < rest.length → HopOk (env (i + j))) →
      ∃ c, dialLoop prev conn rest env i = (some c, none, connectTrace prev rest) := by
  intro rest
  induction rest with
  | nil => intro prev conn env i _; exact ⟨conn, rfl⟩
  | cons peer rest ih =>
    intro prev conn env i hok
    have h0 : HopOk (env i) := by simpa using hok 0 (by simp)
    obtain ⟨_, hwr, hhs, hresp⟩ := h0
    have hw : writesOk (env i) prev := ⟨hwr 0, by
      apply List.all_eq_true.mpr
      intro x _
      exact hwr (x + 1), hwr (prev.connectExtra.length + 1)⟩
    have hdo := doHTTPConnect_ok conn peer prev (env i) hw hresp
    obtain ⟨c2, htls⟩ := hopTLS_ok conn peer (env i) hhs
    have hok' : ∀ j, j < rest.length → HopOk (env (i + 1 + j)) := by
      intro j hj
      have := hok (j + 1) (by simpa using Nat.succ_lt_succ hj)
      have harith : i + (j + 1) = i + 1 + j := by omega
      rwa [harith] at this
    obtain ⟨c3, hrec⟩ := ih peer c2 env (i + 1) hok'
    refine ⟨c3, ?_⟩
    simp [dialLoop, hdo, htls, hrec, connectTrace]

theorem dialProxy_ok (peers : List Peer) (env : Nat → HopEnv)
    (hok : ∀ i, i < peers.length → HopOk (env i)) :
    ∃ c, match peers with
      | [] => DialProxy peers env = (none, none, [])
      | _ :: _ => DialProxy peers env = (some c, none, expectedTrace peers) := by
  cases peers with
  | nil => exact ⟨Conn.tcp "" 0, rfl⟩
  | cons p0 rest =>
    have h0 : HopOk (env 0) := hok 0 (by simp)
    obtain ⟨hdial, _, hhs, _⟩ := h0
    obtain ⟨c1, htls⟩ := hopTLS_ok (Conn.tcp p0.hostName p0.port) p0 (env 0) hhs
    have hok' : ∀ j, j < rest.length → HopOk (env (1 + j)) := by
      intro j hj
      exact hok (1 + j) (by simpa [Nat.add_comm] using Nat.succ_lt_succ hj)
    obtain ⟨c2, hloop⟩ := dialLoop_ok rest p0 c1 env 1 hok'
    refine ⟨c2, ?_⟩
    simp [DialProxy, hdial, htls, hloop, expectedTrace]

theorem dialLoop_trace_pre :
    ∀ (rest : List Peer) (prev : Peer) (conn : Conn) (env : Nat → HopEnv) (i : Nat),
      (dialLoop prev conn rest env i).2.2 <+: connectTrace prev rest := by
  intro rest
  induction rest with
  | nil => intro prev conn env i; simp [dialLoop, connectTrace]
  | cons peer rest ih =>
    intro prev conn env i
    rcases hdo : doHTTPConnect conn peer prev (env i) with ⟨c1, er⟩
    cases er with
    | some er =>
      simp only [dialLoop, hdo, connectTrace]
      exact ⟨tlsEvs peer ++ connectTrace peer rest, by simp⟩
    | none =>
      rcases htls : hopTLS c1 peer (env i) with ⟨c2, er2, evs⟩
      have hevs : evs = tlsEvs peer := by
        have := hopTLS_evs c1 peer (env i)
        rw [htls] at this
        exact this
      subst hevs
      cases er2 with
      | some er2 =>
        simp only [dialLoop, hdo, htls, connectTrace]
        exact ⟨connectTrace peer rest, by simp⟩
      | none =>
        rcases hrec : dialLoop peer c2 rest env (i + 1) with ⟨c3, er3, evs3⟩
        have hpre : evs3 <+: connectTrace peer rest := by
          have := ih peer c2 env (i + 1)
          rw [hrec] at this
          exact this
        obtain ⟨tail, htail⟩ := hpre
        simp only [dialLoop, hdo, htls, hrec, connectTrace]
        exact ⟨tail, by simp [← htail]⟩

theorem dialProxy_trace_pre (peers : List Peer) (env : Nat → HopEnv) :
    (DialProxy peers env).2.2 <+: expectedTrace peers := by
  cases peers with
  | nil => simp [DialProxy, expectedTrace]
  | cons p0 rest =>
    by_cases hdial : (env 0).dialOk
    · rcases htls : hopTLS (Conn.tcp p0.hostName p0.port) p0 (env 0) with ⟨c1, er, evs⟩
      have hevs : evs = tlsEvs p0 := by
        have := hopTLS_evs (Conn.tcp p0.hostName p0.port) p0 (env 0)
        rw [htls] at this
        exact this
      subst hevs
      cases er with
      | some er =>
        simp only [DialProxy, hdial, if_true, htls, expectedTrace]
        exact ⟨connectTrace p0 rest, by simp⟩
      | none =>
        rcases hloop : dialLoop p0 c1 rest env 1 with ⟨c2, er2, evs2⟩
        have hpre : evs2 <+: connectTrace p0 rest := by
          have := dialLoop_trace_pre rest p0 c1 env 1
          rw [hloop] at this
          exact this
        obtain ⟨tail, htail⟩ := hpre
        simp only [DialProxy, hdial, if_true, htls, hloop, expectedTrace]
        exact ⟨tail, by simp [← htail]⟩
    · simp only [DialProxy, hdial, if_false, expectedTrace]
      exact ⟨tlsEvs p0 ++ connectTrace p0 rest, by simp⟩

theorem connectEvents_tlsEvs (p : Peer) : connectEvents (tlsEvs p) = [] := by
  unfold tlsEvs
  cases p.tlsConfig <;> simp [connectEvents]

theorem handshakeEvents_tlsEvs (p : Peer) : handshakeEvents (tlsEvs p) = tlsEvs p := by
  unfold tlsEvs
  cases p.tlsConfig <;> simp [handshakeEvents]

theorem connectEvents_connectTrace :
    ∀ (rest : List Peer) (prev : Peer),
      connectEvents (connectTrace prev rest) =
        (rest.zip (prev :: rest)).map
          fun pq => Ev.connect pq.1.hostName pq.1.port pq.2.connectExtra := by
  intro rest
  induction rest with
  | nil => intro prev; simp [connectTrace, connectEvents]
  | cons peer rest ih =>
    intro prev
    have h1 : connectEvents (connectTrace prev (peer :: rest))
        = Ev.connect peer.hostName peer.port prev.connectExtra
          :: (connectEvents (tlsEvs peer) ++ connectEvents (connectTrace peer rest)) := by
      simp [connectTrace, connectEvents, List.filter_append]
    rw [h1, connectEvents_tlsEvs peer, ih peer]
    simp

theorem handshakeEvents_connectTrace :
    ∀ (rest : List Peer) (prev : Peer),
      handshakeEvents (connectTrace prev rest) =
        (rest.filter fun p => p.tlsConfig.isSome).map
          fun p => Ev.handshake p.hostName := by
  intro rest
  induction rest with
  | nil => intro prev; simp [connectTrace, handshakeEvents]
  | cons peer rest ih =>
    intro prev
    rw [show connectTrace prev (peer :: rest)
        = [Ev.connect peer.hostName peer.port prev.connectExtra] ++ tlsEvs peer
          ++ connectTrace peer rest from by simp [connectTrace]]
    simp only [handshakeEvents, List.filter_append] at *
    rw [ih peer]
    have hhd : handshakeEvents (tlsEvs peer)
        = (List.filter (fun p => p.tlsConfig.isSome) [peer]).map
            fun p => Ev.handshake p.hostName := by
      unfold tlsEvs handshakeEvents
      cases h : peer.tlsConfig <;> simp [List.filter, h]
    unfold handshakeEvents at hhd
    cases h : peer.tlsConfig <;>
      simp_all [List.filter, handshakeEvents, tlsEvs]

theorem connectEvents_expectedTrace (p0 : Peer) (rest : List Peer) :
    connectEvents (expectedTrace (p0 :: rest)) =
      (rest.zip (p0 :: rest)).map
        fun pq => Ev.connect pq.1.hostName pq.1.port pq.2.connectExtra := by
  have h1 : connectEvents (expectedTrace (p0 :: rest))
      = connectEvents (tlsEvs p0) ++ connectEvents (connectTrace p0 rest) := by
    simp [expectedTrace, connectEvents, List.filter_append]
  rw [h1, connectEvents_tlsEvs p0, connectEvents_connectTrace rest p0]
  simp

theorem handshakeEvents_expectedTrace (p0 : Peer) (rest : List Peer) :
    handshakeEvents (expectedTrace (p0 :: rest)) =
      ((p0 :: rest).filter fun p => p.tlsConfig.isSome).map
        fun p => Ev.handshake p.hostName := by
  have h1 : handshakeEvents (expectedTrace (p0 :: rest))
      = handshakeEvents (tlsEvs p0) ++ handshakeEvents (connectTrace p0 rest) := by
    simp [expectedTrace, handshakeEvents, List.filter_append]
  rw [h1, handshakeEvents_tlsEvs p0, handshakeEvents_connectTrace rest p0]
  cases h : p0.tlsConfig <;> simp [tlsEvs, h, List.filter]

/-- C1: for a non-empty chain whose hops all succeed, DialProxy returns no
error and its action trace is exactly the hop-ordered expected trace: it
dials peer 0 by plain TCP first, issues exactly n-1 CONNECT requests, one
per peer i >= 1 in hop order with the ConnectExtra headers of peer i-1, and
performs exactly one TLS handshake per peer with a non-nil TLSConfig, in
hop order; moreover under every environment (success or failure) the trace
is a prefix of the expected trace, so hop i+1 is never attempted before
hop i has succeeded. -/
theorem dialProxy_c1 (peers : List Peer) (env : Nat → HopEnv)
    (hne : peers ≠ []) (hok : ∀ i, i < peers.length → HopOk (env i)) :
    (DialProxy peers env).2.1 = none
    ∧ (DialProxy peers env).2.2 = expectedTrace peers
    ∧ connectEvents (expectedTrace peers)
        = (peers.tail.zip peers).map
            (fun pq => Ev.connect pq.1.hostName pq.1.port pq.2.connectExtra)
    ∧ (connectEvents (expectedTrace peers)).length = peers.length - 1
    ∧ handshakeEvents (expectedTrace peers)
        = (peers.filter fun p => p.tlsConfig.isSome).map
            (fun p => Ev.handshake p.hostName)
    ∧ (expectedTrace peers).head?
        = some (Ev.dial (peers.head hne).hostName (peers.head hne).port)
    ∧ ∀ env2, (DialProxy peers env2).2.2 <+: expectedTrace peers := by
  cases peers with
  | nil => exact absurd rfl hne
  | cons p0 rest =>
    obtain ⟨c, hrun⟩ := dialProxy_ok (p0 :: rest) env hok
    simp only at hrun
    refine ⟨by rw [hrun], by rw [hrun], connectEvents_expectedTrace p0 rest, ?_,
      handshakeEvents_expectedTrace p0 rest, by simp [expectedTrace],
      fun env2 => dialProxy_trace_pre (p0 :: rest) env2⟩
    rw [connectEvents_expectedTrace p0 rest]
    simp [List.length_zip]

theorem okHop_respOk : respOk okHop.resp :=
  ⟨"HTTP/1.0 200\r\n".data, ['\r', '\n'], by decide, by decide, by decide⟩

theorem okHop_HopOk : HopOk okHop :=
  ⟨rfl, fun _ => rfl, rfl, okHop_respOk⟩

/-- C1 witness: the concrete chain [a:1 plain, b:2 tls] under the all-ok
environment: no error and the expected trace (dial, CONNECT with the first
hop's headers, one handshake). -/
theorem dialProxy_c1_witness :
    (DialProxy [pA, pB] (fun _ => okHop)).2.1 = none
    ∧ (DialProxy [pA, pB] (fun _ => okHop)).2.2 = expectedTrace [pA, pB]
    ∧ (connectEvents (expectedTrace [pA, pB])).length = 1 := by
  have h := dialProxy_c1 [pA, pB] (fun _ => okHop) (by simp)
    (fun i _ => okHop_HopOk)
  exact ⟨h.1, h.2.1, h.2.2.2.1⟩

theorem dialLoop_conn_isSome :
    ∀ (rest : List Peer) (prev : Peer) (conn : Conn) (env : Nat → HopEnv) (i : Nat),
      ((dialLoop prev conn rest env i).1).isSome = true := by
  intro rest
  induction rest with
  | nil => intro prev conn env i; simp [dialLoop]
  | cons peer rest ih =>
    intro prev conn env i
    rcases hdo : doHTTPConnect conn peer prev (env i) with ⟨c1, er⟩
    cases er with
    | some er => simp [dialLoop, hdo]
    | none =>
      rcases htls : hopTLS c1 peer (env i) with ⟨c2, er2, evs⟩
      cases er2 with
      | some er2 => simp [dialLoop, hdo, htls]
      | none =>
        rcases hrec : dialLoop peer c2 rest env (i + 1) with ⟨c3, er3, evs3⟩
        have := ih peer c2 env (i + 1)
        rw [hrec] at this
        simpa [dialLoop, hdo, htls, hrec] using this

/-- C2: failure never drops a partially-established connection:
doHTTPConnect always returns its connection argument (also on error); a
TLS handshake failure returns the pre-handshake connection alongside the
error; once the hop-0 TCP dial has succeeded the DialProxy connection result
is non-nil under every environment; and when the hop-0 dial itself fails
the connection is nil (there is nothing to clean up) with the error. -/
theorem dialProxy_c2 :
    (∀ conn peer activePeer e, (doHTTPConnect conn peer activePeer e).1 = conn)
    ∧ (∀ conn peer e cfg, peer.tlsConfig = some cfg → e.handshakeOk = false →
        hopTLS conn peer e
          = (conn, some (.handshakeFailed peer.hostName), [Ev.handshake peer.hostName]))
    ∧ (∀ peers env, peers ≠ [] → (env 0).dialOk = true →
        ((DialProxy peers env).1).isSome = true)
    ∧ (∀ p0 rest env, (env 0).dialOk = false →
        DialProxy (p0 :: rest) env
          = (none, some (.dialFailed p0.hostName), [Ev.dial p0.hostName p0.port])) := by
  refine ⟨doHTTPConnect_conn, hopTLS_fail, ?_, ?_⟩
  · intro peers env hne hdial
    cases peers with
    | nil => exact absurd rfl hne
    | cons p0 rest =>
      rcases htls : hopTLS (Conn.tcp p0.hostName p0.port) p0 (env 0) with ⟨c1, er, evs⟩
      cases er with
      | some er => simp [DialProxy, hdial, htls]
      | none =>
        rcases hloop : dialLoop p0 c1 rest env 1 with ⟨c2, er2, evs2⟩
        have := dialLoop_conn_isSome rest p0 c1 env 1
        rw [hloop] at this
        simpa [DialProxy, hdial, htls, hloop] using this
  · intro p0 rest env hdial
    simp [DialProxy, hdial]

/-- C2 witness at concrete inputs: doHTTPConnect hands back its argument, a
failed handshake returns the unwrapped connection, a dialed chain yields a
non-nil connection even when a later hop fails, and a failed first dial
yields nil plus the error. -/
theorem dialProxy_c2_witness :
    (doHTTPConnect (Conn.tcp "a" 1) pB pA badTLSHop).1 = Conn.tcp "a" 1
    ∧ hopTLS (Conn.tcp "a" 1) pB badTLSHop
        = (Conn.tcp "a" 1, some (.handshakeFailed pB.hostName),
           [Ev.handshake pB.hostName])
    ∧ ((DialProxy [pA, pB] (fun _ => badTLSHop)).1).isSome = true
    ∧ DialProxy [pA, pB] (fun _ => noDialHop)
        = (none, some (.dialFailed pA.hostName), [Ev.dial pA.hostName pA.port]) :=
  ⟨dialProxy_c2.1 (Conn.tcp "a" 1) pB pA badTLSHop,
   dialProxy_c2.2.1 (Conn.tcp "a" 1) pB badTLSHop ⟨true, "b"⟩ rfl rfl,
   dialProxy_c2.2.2.1 [pA, pB] (fun _ => badTLSHop) (by simp) rfl,
   dialProxy_c2.2.2.2 pA [pB] (fun _ => noDialHop) rfl⟩

/-- C3: a hop counts as connected only when the status line is accepted by
status200 (begins with "HTTP/1.0 200" or "HTTP/1.1 200") and a second line
is then read (respOk); a status line not of that shape yields the badStatus
error, every doHTTPConnect error names the failing peer, and a failed hop
makes dialLoop return at once, attempting no subsequent hop (its trace ends
at this hop's CONNECT). -/
theorem doHTTPConnect_c3 :
    (∀ conn peer activePeer e er,
      (doHTTPConnect conn peer activePeer e).2 = some er → er.host = peer.hostName)
    ∧ (∀ conn peer activePeer e line rest2,
        writesOk e activePeer →
        readLine (e.resp.take 1024) = some (line, rest2) →
        status200 line = false →
        doHTTPConnect conn peer activePeer e
          = (conn, some (.badStatus peer.hostName line)))
    ∧ (∀ conn peer activePeer e,
        (doHTTPConnect conn peer activePeer e).2 = none → respOk e.resp)
    ∧ (∀ prev conn peer rest env i c1 er,
        doHTTPConnect conn peer prev (env i) = (c1, some er) →
        dialLoop prev conn (peer :: rest) env i
          = (some c1, some er,
             [Ev.connect peer.hostName peer.port prev.connectExtra])) := by
  refine ⟨?_, ?_, ?_, ?_⟩
  · intro conn peer activePeer e er h
    unfold doHTTPConnect at h
    repeat' split at h
    all_goals simp_all
    all_goals (subst h; rfl)
  · intro conn peer activePeer e line rest2 hw hline hstatus
    obtain ⟨hw0, hwh, hwe⟩ := hw
    simp [doHTTPConnect, hw0, hwh, hwe, hline, hstatus]
  · intro conn peer activePeer e h
    unfold doHTTPConnect at h
    split at h
    · simp at h
    · split at h
      · simp at h
      · split at h
        · simp at h
        · split at h
          · simp at h
          · rename_i line rest2 hline
            split at h
            · simp at h
            · rename_i hstatus
              split at h
              · simp at h
              · rename_i s2 hs2
                exact ⟨line, rest2, hline, by
                  cases hs : status200 line with
                  | false => exact absurd hs hstatus
                  | true => rfl, by simp [hs2]⟩
  · intro prev conn peer rest env i c1 er h
    simp [dialLoop, h]

/-- C3 witness: a concrete CONNECT answered with "HTTP/1.1 404 Not Found"
produces the badStatus error naming the hop, and dialLoop stops right
there. -/
theorem doHTTPConnect_c3_witness :
    doHTTPConnect (Conn.tcp "a" 1) pB pA rejectHop
      = (Conn.tcp "a" 1,
         some (.badStatus pB.hostName "HTTP/1.1 404 Not Found\r\n".data))
    ∧ DialErr.host (.badStatus pB.hostName "HTTP/1.1 404 Not Found\r\n".data)
        = pB.hostName
    ∧ dialLoop pA (Conn.tcp "a" 1) [pB] (fun _ => rejectHop) 1
        = (some (Conn.tcp "a" 1),
           some (.badStatus pB.hostName "HTTP/1.1 404 Not Found\r\n".data),
           [Ev.connect pB.hostName pB.port pA.connectExtra]) := by
  have h1 := doHTTPConnect_c3.2.1 (Conn.tcp "a" 1) pB pA rejectHop
    "HTTP/1.1 404 Not Found\r\n".data "\r\n".data
    ⟨rfl, by decide, rfl⟩ (by decide) (by decide)
  have h2 := doHTTPConnect_c3.1 (Conn.tcp "a" 1) pB pA rejectHop
    (.badStatus pB.hostName "HTTP/1.1 404 Not Found\r\n".data) (by rw [h1])
  have h3 := doHTTPConnect_c3.2.2.2 pA (Conn.tcp "a" 1) pB []
    (fun _ => rejectHop) 1 (Conn.tcp "a" 1)
    (.badStatus pB.hostName "HTTP/1.1 404 Not Found\r\n".data) h1
  exact ⟨h1, h2, h3⟩

/-- C9: for the empty peer list DialProxy returns nil connection and nil
error (the loop body never runs), and handleRequest therefore takes the
success branch and relays on a nil connection. -/
theorem dialProxy_c9 :
    (∀ env, DialProxy [] env = (none, none, []))
    ∧ (∀ env, handleRequest [] env = HandleOutcome.relay none) :=
  ⟨fun _ => rfl, fun _ => rfl⟩

/-- C7 counterexample: for the configured chain [a:1, b:2] and SNI host "s",
the hijacker issues two CONNECT requests, not one, and one of them targets
the originally configured final peer b:2 — the final hop is dialed as
configured, not substituted by s:443. -/
theorem hijack_c7_counterexample :
    (connectEvents (hijackTLSRequest (some "s") [pA, pB]
        (fun _ => okHop) okHop).2).length = 2
    ∧ Ev.connect "b" 2 [("Proxy-Authorization", "Basic x")]
        ∈ connectEvents (hijackTLSRequest (some "s") [pA, pB]
            (fun _ => okHop) okHop).2 := by
  constructor <;> decide

/-- C7 (amended): with a non-empty SNI host, hijackTLSRequest dials the
full configured chain unchanged (its whole expected trace, including the
CONNECT to the configured final peer) and then issues exactly one
additional CONNECT, to host:443, sent with the ConnectExtra headers of
the configured last peer, before relaying. -/
theorem hijack_c7_amended (peers : List Peer) (env : Nat → HopEnv)
    (envF : HopEnv) (host : String) (hh : ¬ host = "") (hne : peers ≠ [])
    (hok : ∀ i, i < peers.length → HopOk (env i))
    (hw : writesOk envF (peers.getLast hne)) (hr : respOk envF.resp) :
    ∃ c, hijackTLSRequest (some host) peers env envF
        = (HijackOutcome.relaying c,
           expectedTrace peers
             ++ [Ev.connect host 443 (peers.getLast hne).connectExtra]) := by
  cases peers with
  | nil => exact absurd rfl hne
  | cons p0 rest =>
    obtain ⟨c, hrun⟩ := dialProxy_ok (p0 :: rest) env hok
    simp only at hrun
    have hlast : (p0 :: rest).getLast? = some ((p0 :: rest).getLast hne) :=
      List.getLast?_eq_getLast (p0 :: rest) hne
    have hdo := doHTTPConnect_ok c ⟨none, host, 443, []⟩
      ((p0 :: rest).getLast hne) envF hw hr
    refine ⟨c, ?_⟩
    simp [hijackTLSRequest, hh, hrun, hlast, hdo]

/-- C7 witness for the amended statement: the chain [a:1, b:2 tls] with SNI
"s" relays after the trace of the chain plus the extra CONNECT to s:443. -/
theorem hijack_c7_amended_witness :
    ∃ c, hijackTLSRequest (some "s") [pA, pB] (fun _ => okHop) okHop
        = (HijackOutcome.relaying c,
           expectedTrace [pA, pB]
             ++ [Ev.connect "s" 443 ([pA, pB].getLast (by simp)).connectExtra]) :=
  hijack_c7_amended [pA, pB] (fun _ => okHop) okHop "s" (by simp) (by simp)
    (fun i _ => okHop_HopOk) ⟨rfl, by decide, rfl⟩ okHop_respOk

end Bridgeproxy

namespace Pooled

theorem string_data_injective : Function.Injective String.data := by
  intro a b h
  cases a
  cases b
  exact congrArg String.mk h

theorem peersAsString_data :
    ∀ (c : List Peer) (s : String),
      (List.foldl (fun acc p => acc ++ p.hostName ++ ":" ++ toString p.port ++ "/") s c).data
        = s.data ++ (c.map fun p => (hostPort p).data ++ ['/']).flatten := by
  intro c
  induction c with
  | nil => intro s; simp
  | cons p c ih =>
    intro s
    rw [List.foldl_cons, ih]
    simp [String.data_append, hostPort]

theorem tokens_eq :
    ∀ (u1 u2 r1 r2 : List Char),
      '/' ∉ u1 → '/' ∉ u2 →
      u1 ++ '/' :: r1 = u2 ++ '/' :: r2 → u1 = u2 ∧ r1 = r2 := by
  intro u1
  induction u1 with
  | nil =>
    intro u2 r1 r2 _ h2 heq
    cases u2 with
    | nil => simpa using heq
    | cons b u2 =>
      simp only [List.nil_append, List.cons_append, List.cons.injEq] at heq
      exact absurd (heq.1 ▸ List.mem_cons_self b u2) (heq.1 ▸ h2)
  | cons a u1 ih =>
    intro u2 r1 r2 h1 h2 heq
    cases u2 with
    | nil =>
      simp only [List.cons_append, List.nil_append, List.cons.injEq] at heq
      exact absurd (heq.1 ▸ List.mem_cons_self a u1) (heq.1 ▸ h1)
    | cons b u2 =>
      simp only [List.cons_append, List.cons.injEq] at heq
      have h1' : '/' ∉ u1 := fun hm => h1 (List.mem_cons_of_mem a hm)
      have h2' : '/' ∉ u2 := fun hm => h2 (List.mem_cons_of_mem b hm)
      obtain ⟨hu, hr⟩ := ih u2 r1 r2 h1' h2' heq.2
      exact ⟨by rw [heq.1, hu], hr⟩

theorem tokensJoin_inj :
    ∀ (l1 l2 : List (List Char)),
      (∀ t ∈ l1, '/' ∉ t) → (∀ t ∈ l2, '/' ∉ t) →
      (l1.map fun t => t ++ ['/']).flatten = (l2.map fun t => t ++ ['/']).flatten →
      l1 = l2 := by
  intro l1
  induction l1 with
  | nil =>
    intro l2 _ _ heq
    cases l2 with
    | nil => rfl
    | cons t l2 => simp at heq
  | cons t1 l1 ih =>
    intro l2 h1 h2 heq
    cases l2 with
    | nil => simp at heq
    | cons t2 l2 =>
      simp only [List.map_cons, List.flatten_cons, List.append_assoc,
        List.singleton_append] at heq
      obtain ⟨ht, hj⟩ := tokens_eq t1 t2 _ _
        (h1 t1 (List.mem_cons_self t1 l1)) (h2 t2 (List.mem_cons_self t2 l2)) heq
      have hl := ih l2 (fun t ht => h1 t (List.mem_cons_of_mem t1 ht))
        (fun t ht => h2 t (List.mem_cons_of_mem t2 ht)) hj
      rw [ht, hl]

/-- C5 counterexample: two distinct one-peer chains — identical hostName
and port but one with a TLS configuration and one without — receive the
same pool key, so the fingerprint does not separate chains that differ in
ways other than their hostName:port sequence. -/
theorem peersAsString_c5_counterexample :
    peersAsString [⟨none, "h", 1, []⟩]
        = peersAsString [⟨some ⟨true, ""⟩, "h", 1, []⟩]
    ∧ ([⟨none, "h", 1, []⟩] : List Peer) ≠ [⟨some ⟨true, ""⟩, "h", 1, []⟩] := by
  constructor <;> decide

/-- C5 (amended): the pool key is determined by, and only by, the sequence
of hostName:port entries: provided no entry contains the slash separator,
two chains receive the same key exactly when their hostName:port sequences
are equal — in particular identical peer sequences always collide, while
chains differing only in TLS configuration or CONNECT headers also
collide. -/
theorem peersAsString_c5_amended (c1 c2 : List Peer)
    (h1 : ∀ p ∈ c1, '/' ∉ (hostPort p).data)
    (h2 : ∀ p ∈ c2, '/' ∉ (hostPort p).data) :
    peersAsString c1 = peersAsString c2 ↔ c1.map hostPort = c2.map hostPort := by
  constructor
  · intro heq
    have hdata := congrArg String.data heq
    rw [show peersAsString c1
          = List.foldl (fun acc p => acc ++ p.hostName ++ ":" ++ toString p.port ++ "/")
              "" c1 from rfl,
        show peersAsString c2
          = List.foldl (fun acc p => acc ++ p.hostName ++ ":" ++ toString p.port ++ "/")
              "" c2 from rfl,
        peersAsString_data c1 "", peersAsString_data c2 ""] at hdata
    simp only [List.nil_append] at hdata
    have hmapdata : (c1.map fun p => (hostPort p).data)
        = c2.map fun p => (hostPort p).data := by
      have := tokensJoin_inj (c1.map fun p => (hostPort p).data)
        (c2.map fun p => (hostPort p).data)
        (by intro t ht; obtain ⟨p, hp, rfl⟩ := List.mem_map.mp ht; exact h1 p hp)
        (by intro t ht; obtain ⟨p, hp, rfl⟩ := List.mem_map.mp ht; exact h2 p hp)
        (by simpa [List.map_map, Function.comp] using hdata)
      exact this
    have : (c1.map hostPort).map String.data = (c2.map hostPort).map String.data := by
      simpa [List.map_map, Function.comp] using hmapdata
    exact List.map_injective_iff.mpr string_data_injective this
  · intro hmap
    apply string_data_injective
    rw [show peersAsString c1
          = List.foldl (fun acc p => acc ++ p.hostName ++ ":" ++ toString p.port ++ "/")
              "" c1 from rfl,
        show peersAsString c2
          = List.foldl (fun acc p => acc ++ p.hostName ++ ":" ++ toString p.port ++ "/")
              "" c2 from rfl,
        peersAsString_data c1 "", peersAsString_data c2 ""]
    have e1 : (c1.map fun p => (hostPort p).data ++ ['/'])
        = (c1.map hostPort).map fun s => s.data ++ ['/'] := by
      simp [List.map_map, Function.comp]
    have e2 : (c2.map fun p => (hostPort p).data ++ ['/'])
        = (c2.map hostPort).map fun s => s.data ++ ['/'] := by
      simp [List.map_map, Function.comp]
    rw [e1, e2, hmap]

/-- C5 witness for the amended statement, at two concrete chains with
different hostName:port entries: the keys differ because the entry
sequences do. -/
theorem peersAsString_c5_amended_witness :
    (peersAsString [⟨none, "h", 1, []⟩] = peersAsString [⟨none, "k", 3, []⟩]
      ↔ ([⟨none, "h", 1, []⟩] : List Peer).map hostPort
          = ([⟨none, "k", 3, []⟩] : List Peer).map hostPort) :=
  peersAsString_c5_amended [⟨none, "h", 1, []⟩] [⟨none, "k", 3, []⟩]
    (by decide) (by decide)

/-- C6: the pooled DialProxy does not return every published error
immediately: probing the connection precedes the error check, so a
published result with a nil connection and a non-nil error (what the
background task publishes when the first hop's TCP dial fails) makes the
loop call Read on a nil net.Conn and panic instead of returning the error;
only for a non-nil connection that still probes clean is the error
returned as the claim describes. -/
theorem acquireLoop_c6 :
    (acquireLoop [⟨none, some "connection refused"⟩]).1 = AcqOutcome.panicked
    ∧ (acquireLoop [⟨none, some "connection refused"⟩]).1
        ≠ AcqOutcome.ret none (some "connection refused")
    ∧ (acquireLoop [⟨some ⟨0, false⟩, some "tunnel rejected"⟩]).1
        = AcqOutcome.ret none (some "tunnel rejected") := by
  refine ⟨rfl, ?_, rfl⟩
  decide

/-- C10: a queued connection whose probe read reports it closed is
discarded — the loop just continues with the next published result — and
the loop never performs a close action on any connection, in particular
not on the discarded one. -/
theorem acquireLoop_c10 :
    (∀ q c, PAct.closeConn c ∉ (acquireLoop q).2)
    ∧ (∀ r c rest, r.c = some c → c.probeErr = true →
        (acquireLoop (r :: rest)).1 = (acquireLoop rest).1
        ∧ (acquireLoop (r :: rest)).2
            = PAct.recv r :: PAct.probeRead c :: (acquireLoop rest).2) := by
  constructor
  · intro q
    induction q with
    | nil => intro c; simp [acquireLoop]
    | cons r rest ih =>
      intro c
      match hc : r.c with
      | none => simp [acquireLoop, hc]
      | some c0 =>
        by_cases hp : c0.probeErr
        · rcases hrec : acquireLoop rest with ⟨out, acts⟩
          have := ih c
          rw [hrec] at this
          simp [acquireLoop, hc, hp, hrec, this]
        · by_cases he : r.e.isSome <;> simp [acquireLoop, hc, hp, he]
  · intro r c rest hc hp
    rcases hrec : acquireLoop rest with ⟨out, acts⟩
    constructor <;> simp [acquireLoop, hc, hp, hrec]

/-- C10 witness: a concrete queue whose first connection probes as closed:
it is skipped, the next healthy connection is returned, and no close
action is ever recorded. -/
theorem acquireLoop_c10_witness :
    (PAct.closeConn ⟨1, true⟩
        ∉ (acquireLoop [⟨some ⟨1, true⟩, none⟩, ⟨some ⟨2, false⟩, none⟩]).2)
    ∧ (acquireLoop [⟨some ⟨1, true⟩, none⟩, ⟨some ⟨2, false⟩, none⟩]).1
        = (acquireLoop [⟨some ⟨2, false⟩, none⟩]).1 :=
  ⟨acquireLoop_c10.1 [⟨some ⟨1, true⟩, none⟩, ⟨some ⟨2, false⟩, none⟩] ⟨1, true⟩,
   (acquireLoop_c10.2 ⟨some ⟨1, true⟩, none⟩ ⟨1, true⟩
      [⟨some ⟨2, false⟩, none⟩] rfl rfl).1⟩

/-- C8: the check-then-act registration is not race-free: under the
interleaving where both callers perform the map lookup before either
stores, two channels are made and two background tasks are spawned for the
same fingerprint, while any sequential schedule registers exactly one. -/
theorem regRun_c8 :
    (regRun [false, true, false, true]).tasksSpawned = 2
    ∧ (regRun [false, true, false, true]).chansMade = 2
    ∧ (regRun [false, false, true, true]).tasksSpawned = 1
    ∧ (regRun [false, false, true, true]).chansMade = 1 := by
  refine ⟨?_, ?_, ?_, ?_⟩ <;> decide

end Pooled

